import Mathlib

/-!
Verification development for the snapshot-collection-and-retention engine of
`src/amigo/lib/reporter.py` (class `Reporter`).  The engine is shallowly
embedded below: the directory-resolution logic of `Reporter._setup`
(lines 40-58) as pure functions over an abstract filesystem and clock, and
the orchestration of `Reporter._fetch_projects`,
`Reporter._fetch_attributes_for_projects`, the two `_record_attribute_data_*`
helpers and `Reporter.run` as explicit state passing over an abstract
collaborator oracle.  The collaborators (`util`, `Database`, `GCPWrapper`)
are not part of the repository sources; where their behaviour matters they
are modelled from the spec and say so in their doc comments.
-/

namespace Amigo

/-! ## Directory setup: `Reporter._setup`, lines 40-58 -/

/-- Python `range(a, b)`: the list `[a, a+1, ..., b-1]`, empty when `b ≤ a`. -/
def pyRange (a b : Nat) : List Nat := List.range' a (b - a)

/-- Modelled from the spec: `util.get_date(days_ago)` (missing from `src/`,
called at lines 46 and 53) returns the date `days_ago` days before the
current date, where the current date is read from a clock at call time.
Dates are represented as integers (day numbers), so the result is the clock
reading passed in minus `days_ago`. -/
def get_date (reading : Int) (days_ago : Nat) : Int := reading - (days_ago : Int)

/-- The hardcoded look-back constant `days_back = 30` of `Reporter._setup`
(line 51). -/
def days_back : Nat := 30

/-- The search loop of `Reporter._setup` lines 52-58, with an explicit clock:
`clock k` is the date delivered by the k-th `util.get_date` call of `_setup`
(call 0 formed the current report directory at line 46, the probes are calls
1, 2, ...), and `fs p` says whether path `p` exists on disk
(`util.is_path`, modelled from the spec as an existence test).
For each `day` of the iteration list, `self.previous_reports` is first
assigned the probed path (line 53) and only then tested (line 54): when the
path exists the loop breaks keeping the found path; when it does not, the
loop continues - keeping the last probed path if the list runs out. -/
def scan_previous (clock : Nat → Int) (fs : Int → Bool) :
    Nat → Option Int → List Nat → Option Int
  | _, prev, [] => prev
  | k, _, day :: rest =>
      let p := get_date (clock k) day
      if fs p then some p else scan_previous clock fs (k + 1) (some p) rest

/-- The same search loop under the assumption that every clock reading during
`_setup` returns one fixed date `today`. -/
def scan_previous_onedate (fs : Int → Bool) (today : Int) :
    Option Int → List Nat → Option Int
  | prev, [] => prev
  | _, day :: rest =>
      let p := get_date today day
      if fs p then some p else scan_previous_onedate fs today (some p) rest

/-- `Reporter._setup`'s previous-report search for a window constant `n`
(the code runs it with `n = days_back = 30`): iterate `range(1, n)` starting
from the `None` that `__init__` stored in `self.previous_reports`
(line 26), with a single fixed date `today`. -/
def search_previous (fs : Int → Bool) (today : Int) (n : Nat) : Option Int :=
  scan_previous_onedate fs today none (pyRange 1 n)

/-- The value of `self.previous_reports` after `_setup`, single-date clock. -/
def setup_previous (fs : Int → Bool) (today : Int) : Option Int :=
  search_previous fs today days_back

/-- The value of `self.reports` set at line 46: the path for the date of the
0-th clock reading, `util.get_date()` with `days_ago = 0`. -/
def setup_reports (clock : Nat → Int) : Int := get_date (clock 0) 0

/-- The pair `(self.reports, self.previous_reports)` returned by
`Reporter.run` (line 158), as produced by `_setup` under a single-date
clock. -/
def run_result (fs : Int → Bool) (today : Int) : Int × Option Int :=
  (setup_reports fun _ => today, setup_previous fs today)

/-- The sequence of paths probed by the search loop of `_setup`
(the successive values assigned to `self.previous_reports` at line 53),
with an explicit clock; the list stops after the first existing path,
mirroring the `break` at line 58. -/
def probe_list (clock : Nat → Int) (fs : Int → Bool) :
    Nat → List Nat → List Int
  | _, [] => []
  | k, day :: rest =>
      let p := get_date (clock k) day
      if fs p then [p] else p :: probe_list clock fs (k + 1) rest

/-- All paths probed during `_setup`: probes are clock readings 1, 2, ...
over the iteration list `range(1, days_back)`. -/
def setup_probes (clock : Nat → Int) (fs : Int → Bool) : List Int :=
  probe_list clock fs 1 (pyRange 1 days_back)

/-! ## The engine: projects, attributes, store, warnings

`Reporter.__init__` / `run` / `_fetch_projects` /
`_fetch_attributes_for_projects` / `_record_attribute_data_to_db` /
`_record_attribute_data_reports` (lines 20-158).  The type parameter `D`
is the provider-defined shape of one raw attribute item. -/

/-- A discovered project: the spec's data model (section 3) requires at
least a `projectId` field plus other provider-supplied metadata. -/
structure Project where
  projectId : String
  meta : List (String × String)
deriving DecidableEq

/-- Modelled from the spec: the `Database` collaborator (missing from
`src/`; spec section 4.2 `AttributeStore`): a table-oriented store,
`insert` appends a row to the named table (no uniqueness constraint),
`get_table` returns all rows inserted so far in insertion order and the
empty sequence for an unknown table. -/
structure Database (α : Type) where
  tables : String → List α

def Database.insert {α : Type} (db : Database α) (t : String) (r : α) :
    Database α :=
  ⟨fun u => if u = t then db.tables u ++ [r] else db.tables u⟩

def Database.get_table {α : Type} (db : Database α) (t : String) : List α :=
  db.tables t

/-- The empty store: the run opens a fresh database (spec section 3:
AttributeStore is created once per run and owned by the engine). -/
def Database.emptyDb (α : Type) : Database α := ⟨fun _ => []⟩

/-- Modelled from the spec: the `GCPWrapper` collaborator boundary (missing
from `src/`; spec sections 4.3 and 6).  `projects` is the result of the one
unscoped `fetch_attribute("projects")` discovery call and
`projects_warnings` the warnings that client accumulated; `fetch r a pn` is
the result of `fetch_attribute(a, project=pn)` on a client built for
resource-type `r` (an absent result is modelled as the empty list, both
falsy in Python); `fetchWarn r a pn` is the warnings that call appends to
its client's warning list. -/
structure GCP (D : Type) where
  projects : List Project
  projects_warnings : List String
  fetch : String → String → String → List D
  fetchWarn : String → String → String → List String

/-- Observable actions of one run, in order: client construction
(`GCPWrapper(...)`), attribute fetches (`fetch_attribute`), report-file
writes (`util.save_to_json_file`), store inserts (`Database.insert`). -/
inductive Event (D : Type) where
  | clientCreate (resource : String)
  | fetchAttr (resource attrName : String) (project : Option String)
  | fileWrite (filename : String) (content : D)
  | dbInsert (table : String) (value : Project ⊕ D)
deriving DecidableEq

/-- The mutable state of a `Reporter` run: the store, the accumulated
`self.warnings` list, the report files written so far (filename paired with
the JSON document saved), and the trace of observable actions. -/
structure RState (D : Type) where
  db : Database (Project ⊕ D)
  warnings : List String
  files : List (String × D)
  trace : List (Event D)

/-- The state at the start of a run: fresh store, `self.warnings = []`
(line 30), no files written, empty trace. -/
def RState.startState (D : Type) : RState D :=
  ⟨Database.emptyDb (Project ⊕ D), [], [], []⟩

/-- Line 91: `project_name + "@" + attribute_item + ".json"`. -/
def report_filename (project_name attribute_item : String) : String :=
  project_name ++ "@" ++ attribute_item ++ ".json"

/-- `Reporter._record_attribute_data_to_db` (lines 73-80): insert
`attribute_data[0]` into the table named `attribute_item`.  The Python
index `[0]` is partial: `none` models the `IndexError` raised on an empty
sequence. -/
def record_attribute_data_to_db {D : Type} (s : RState D)
    (attribute_item : String) (attribute_data : List D) :
    Option (RState D) :=
  attribute_data.head?.map fun d =>
    { s with
      db := s.db.insert attribute_item (Sum.inr d)
      trace := s.trace ++ [Event.dbInsert attribute_item (Sum.inr d)] }

/-- `Reporter._record_attribute_data_reports` (lines 83-94): write
`attribute_data[0]` to the file named
`project_name + "@" + attribute_item + ".json"` under the current report
directory.  The Python index `[0]` is partial, as above. -/
def record_attribute_data_reports {D : Type} (s : RState D)
    (attribute_item : String) (attribute_data : List D)
    (project_name : String) : Option (RState D) :=
  attribute_data.head?.map fun d =>
    { s with
      files := s.files ++ [(report_filename project_name attribute_item, d)]
      trace := s.trace ++
        [Event.fileWrite (report_filename project_name attribute_item) d] }

/-- The body of the innermost loop of `_fetch_attributes_for_projects`
(lines 132-137): fetch `attribute_item` scoped to the project; if the
result is truthy (non-empty) record it to reports (line 136) then to the
database (line 137), otherwise skip silently. -/
def fetch_attr_step {D : Type} (g : GCP D) (resource project_name : String)
    (s : RState D) (attribute_item : String) : Option (RState D) :=
  let attribute_data := g.fetch resource attribute_item project_name
  let s1 := { s with
    trace := s.trace ++
      [Event.fetchAttr resource attribute_item (some project_name)] }
  match attribute_data with
  | [] => some s1
  | _ :: _ => do
      let s2 ← record_attribute_data_reports s1 attribute_item attribute_data
        project_name
      record_attribute_data_to_db s2 attribute_item attribute_data

/-- One iteration of the middle loop of `_fetch_attributes_for_projects`
(lines 128-141): construct a fresh client for the resource-type
(line 129), run the attribute loop, then drain the client's accumulated
warnings into `self.warnings` when non-empty (lines 140-141).  A client's
accumulated warning list is the concatenation of the warnings of its
fetch calls (spec section 4.3: the client accumulates non-fatal warnings
per instantiation). -/
def process_resource {D : Type} (g : GCP D) (project_name : String)
    (s : RState D) (entry : String × List String) : Option (RState D) := do
  let s0 := { s with trace := s.trace ++ [Event.clientCreate entry.1] }
  let s1 ← entry.2.foldlM (fetch_attr_step g entry.1 project_name) s0
  let ws := entry.2.flatMap fun a => g.fetchWarn entry.1 a project_name
  pure (if ws = [] then s1 else { s1 with warnings := s1.warnings ++ ws })

/-- Line 125: `util.get_value(project, "projectId")` on a row read back
from the `"projects"` table.  Rows of that table are always project rows
in every reachable run (discovery only ever inserts projects there), so
the right-hand default is never exercised by `run`. -/
def get_projectId {D : Type} : Project ⊕ D → String
  | Sum.inl p => p.projectId
  | Sum.inr _ => ""

/-- `Reporter._fetch_projects` (lines 97-113): construct one client for
`"cloudresourcemanager"`, fetch the unscoped `"projects"` attribute, merge
that client's warnings into `self.warnings` when non-empty (lines
107-108), insert every returned project into the `"projects"` table
(lines 110-111), and return `len(projects)` (line 113). -/
def fetch_projects {D : Type} (g : GCP D) (s : RState D) : RState D × Nat :=
  let s1 := { s with
    trace := s.trace ++ [Event.clientCreate "cloudresourcemanager",
      Event.fetchAttr "cloudresourcemanager" "projects" none] }
  let s2 := if g.projects_warnings = [] then s1
    else { s1 with warnings := s1.warnings ++ g.projects_warnings }
  let s3 := g.projects.foldl
    (fun st p =>
      { st with
        db := st.db.insert "projects" (Sum.inl p)
        trace := st.trace ++ [Event.dbInsert "projects" (Sum.inl p)] })
    s2
  (s3, g.projects.length)

/-- `Reporter._fetch_attributes_for_projects` (lines 116-143): for every
row of the `"projects"` table as read back from the store (line 124, a
snapshot taken before the loop mutates the store), extract its
`projectId` (line 125) and run the per-resource loop over the configured
`gcp_attributes` mapping `cfg` (a Python dict iterated in insertion
order, modelled as an association list). -/
def fetch_attributes_for_projects {D : Type} (g : GCP D)
    (cfg : List (String × List String)) (s : RState D) :
    Option (RState D) :=
  (s.db.get_table "projects").foldlM
    (fun st row => cfg.foldlM (process_resource g (get_projectId row)) st)
    s

/-- `Reporter.run` (lines 146-158): fetch projects, then fetch attributes
for every stored project, and report the number of projects retrieved
(the value printed at line 156).  `none` models an uncaught Python
exception escaping the run. -/
def run {D : Type} (g : GCP D) (cfg : List (String × List String))
    (s : RState D) : Option (RState D × Nat) := do
  let r1 := fetch_projects g s
  let s2 ← fetch_attributes_for_projects g cfg r1.1
  pure (s2, r1.2)

/-! ### Total counterparts and per-pair contributions

`run` is `Option`-valued only because of the Python `[0]` indexing; the
functions below compute the same run totally, and decompose its effect on
each state component into per-(project, resource, attribute) contributions.
-/

/-- Total counterpart of `fetch_attr_step`: the guard at line 135 ensures
the `[0]` accesses only ever see a non-empty sequence. -/
def fetch_attr_stepT {D : Type} (g : GCP D) (resource project_name : String)
    (s : RState D) (attribute_item : String) : RState D :=
  let s1 := { s with
    trace := s.trace ++
      [Event.fetchAttr resource attribute_item (some project_name)] }
  match g.fetch resource attribute_item project_name with
  | [] => s1
  | d :: _ =>
      let s2 := { s1 with
        files := s1.files ++
          [(report_filename project_name attribute_item, d)]
        trace := s1.trace ++
          [Event.fileWrite (report_filename project_name attribute_item) d] }
      { s2 with
        db := s2.db.insert attribute_item (Sum.inr d)
        trace := s2.trace ++
          [Event.dbInsert attribute_item (Sum.inr d)] }

/-- Total counterpart of `process_resource`. -/
def process_resourceT {D : Type} (g : GCP D) (project_name : String)
    (s : RState D) (entry : String × List String) : RState D :=
  let s0 := { s with trace := s.trace ++ [Event.clientCreate entry.1] }
  let s1 := entry.2.foldl (fetch_attr_stepT g entry.1 project_name) s0
  let ws := entry.2.flatMap fun a => g.fetchWarn entry.1 a project_name
  if ws = [] then s1 else { s1 with warnings := s1.warnings ++ ws }

/-- Total counterpart of `fetch_attributes_for_projects`. -/
def fetch_attributesT {D : Type} (g : GCP D)
    (cfg : List (String × List String)) (s : RState D) : RState D :=
  (s.db.get_table "projects").foldl
    (fun st row => cfg.foldl (process_resourceT g (get_projectId row)) st)
    s

/-- Total counterpart of `run`. -/
def runT {D : Type} (g : GCP D) (cfg : List (String × List String))
    (s : RState D) : RState D × Nat :=
  let r1 := fetch_projects g s
  (fetch_attributesT g cfg r1.1, r1.2)

/-- The report files one (project, resource, attribute) triple contributes:
nothing when the fetch result is empty, otherwise the single file holding
the first element of the result. -/
def pair_files {D : Type} (g : GCP D) (r pn a : String) :
    List (String × D) :=
  match g.fetch r a pn with
  | [] => []
  | d :: _ => [(report_filename pn a, d)]

/-- The store inserts (table, value) one triple contributes: nothing when
the fetch result is empty, otherwise one row, the first element of the
result, in the table named after the attribute. -/
def pair_rows {D : Type} (g : GCP D) (r pn a : String) :
    List (String × (Project ⊕ D)) :=
  match g.fetch r a pn with
  | [] => []
  | d :: _ => [(a, Sum.inr d)]

/-- The trace events one triple contributes: its fetch, then - only when
the result is non-empty - the file write and the store insert of the first
element. -/
def pair_trace {D : Type} (g : GCP D) (r pn a : String) : List (Event D) :=
  Event.fetchAttr r a (some pn) ::
    match g.fetch r a pn with
    | [] => []
    | d :: _ =>
        [Event.fileWrite (report_filename pn a) d,
         Event.dbInsert a (Sum.inr d)]

/-- Files contributed by one client (one (project, resource-type) pair),
over its attribute list in list order. -/
def client_files {D : Type} (g : GCP D) (r pn : String)
    (items : List String) : List (String × D) :=
  items.flatMap (pair_files g r pn)

/-- Store inserts contributed by one client. -/
def client_rows {D : Type} (g : GCP D) (r pn : String)
    (items : List String) : List (String × (Project ⊕ D)) :=
  items.flatMap (pair_rows g r pn)

/-- The warning list one client accumulates over its calls. -/
def client_warns {D : Type} (g : GCP D) (r pn : String)
    (items : List String) : List String :=
  items.flatMap fun a => g.fetchWarn r a pn

/-- Trace of one client: its construction, then its per-attribute blocks. -/
def client_trace {D : Type} (g : GCP D) (r pn : String)
    (items : List String) : List (Event D) :=
  Event.clientCreate r :: items.flatMap (pair_trace g r pn)

/-- Files contributed by one project across the configured resource map. -/
def proj_files {D : Type} (g : GCP D) (cfg : List (String × List String))
    (pn : String) : List (String × D) :=
  cfg.flatMap fun e => client_files g e.1 pn e.2

/-- Store inserts contributed by one project. -/
def proj_rows {D : Type} (g : GCP D) (cfg : List (String × List String))
    (pn : String) : List (String × (Project ⊕ D)) :=
  cfg.flatMap fun e => client_rows g e.1 pn e.2

/-- Warnings contributed by one project. -/
def proj_warns {D : Type} (g : GCP D) (cfg : List (String × List String))
    (pn : String) : List String :=
  cfg.flatMap fun e => client_warns g e.1 pn e.2

/-- Trace contributed by one project. -/
def proj_trace {D : Type} (g : GCP D) (cfg : List (String × List String))
    (pn : String) : List (Event D) :=
  cfg.flatMap fun e => client_trace g e.1 pn e.2

/-- Files written during attribute collection, over the project names in
store insertion order. -/
def all_files {D : Type} (g : GCP D) (cfg : List (String × List String))
    (pns : List String) : List (String × D) :=
  pns.flatMap (proj_files g cfg)

/-- Store inserts during attribute collection. -/
def all_rows {D : Type} (g : GCP D) (cfg : List (String × List String))
    (pns : List String) : List (String × (Project ⊕ D)) :=
  pns.flatMap (proj_rows g cfg)

/-- Warnings appended during attribute collection. -/
def all_warns {D : Type} (g : GCP D) (cfg : List (String × List String))
    (pns : List String) : List String :=
  pns.flatMap (proj_warns g cfg)

/-- Trace of attribute collection. -/
def all_trace {D : Type} (g : GCP D) (cfg : List (String × List String))
    (pns : List String) : List (Event D) :=
  pns.flatMap (proj_trace g cfg)

/-- The store inserts of project discovery: every discovered project, in
order, into the `"projects"` table. -/
def disc_rows {D : Type} (g : GCP D) : List (String × (Project ⊕ D)) :=
  g.projects.map fun p => ("projects", Sum.inl p)

/-- The trace of project discovery: one client for
`"cloudresourcemanager"`, the unscoped `"projects"` fetch, then the
inserts. -/
def disc_trace {D : Type} (g : GCP D) : List (Event D) :=
  Event.clientCreate "cloudresourcemanager" ::
    Event.fetchAttr "cloudresourcemanager" "projects" none ::
    g.projects.map fun p => Event.dbInsert "projects" (Sum.inl p)

/-- Apply a list of (table, value) inserts to a store, in order. -/
def db_apply {α : Type} (db : Database α) (l : List (String × α)) :
    Database α :=
  l.foldl (fun d e => d.insert e.1 e.2) db

/-- The values a list of (table, value) inserts adds to table `t`. -/
def rows_for {α : Type} (t : String) (l : List (String × α)) : List α :=
  l.filterMap fun e => if t = e.1 then some e.2 else none

/-- The project names attribute collection iterates: the `"projects"`
table as read back from the store after discovery (line 124), one
`projectId` per row (line 125). -/
def run_project_names {D : Type} (g : GCP D) (s : RState D) : List String :=
  ((fetch_projects g s).1.db.get_table "projects").map get_projectId

/-! ## The report-filename round trip

The downstream diff consumer recovers the project and attribute from a
report filename by splitting on `"@"` (the comment at lines 87-88:
"We use the symbol @ to be able to split on it later, when reading the
reports").  `splitOnChar` models Python's `str.split` with a one-character
separator, on strings viewed as character lists. -/

/-- Python `s.split(c)` for a single-character separator `c`:
`splitOnChar c [] = [[]]`, and each occurrence of `c` starts a new chunk. -/
def splitOnChar (c : Char) : List Char → List (List Char)
  | [] => [[]]
  | x :: xs =>
      if x = c then [] :: splitOnChar c xs
      else
        match splitOnChar c xs with
        | [] => [[x]]
        | y :: ys => (x :: y) :: ys

/-! ## Concrete instances used to exercise the theorems -/

/-- A small collaborator oracle: two projects; for `p1` the `networks`
fetch is empty but carries a collaborator warning, and the later
`firewalls` fetch returns two items; for `p2` the `networks` fetch is
empty and silent, and `firewalls` returns one item. -/
def gEx : GCP Nat where
  projects := [⟨"p1", []⟩, ⟨"p2", []⟩]
  projects_warnings := []
  fetch := fun r a pn =>
    if r = "compute" ∧ a = "firewalls" ∧ pn = "p1" then [7, 8]
    else if r = "compute" ∧ a = "firewalls" ∧ pn = "p2" then [9]
    else []
  fetchWarn := fun _ a pn =>
    if a = "networks" ∧ pn = "p1" then ["w1"] else []

/-- The configured attribute map used with `gEx`: one resource-type with
two attribute names, `networks` before `firewalls`. -/
def cfgEx : List (String × List String) := [("compute", ["networks", "firewalls"])]

/-- An oracle whose discovery fetch returns the same project twice. -/
def gDup : GCP Nat where
  projects := [⟨"a", []⟩, ⟨"a", []⟩]
  projects_warnings := []
  fetch := fun _ _ _ => []
  fetchWarn := fun _ _ _ => []

end Amigo

namespace Amigo

/-! ## Lemmas about the previous-report search -/

theorem scan_previous_const (fs : Int → Bool) (today : Int) :
    ∀ (l : List Nat) (k : Nat) (prev : Option Int),
      scan_previous (fun _ => today) fs k prev l =
        scan_previous_onedate fs today prev l := by
  intro l
  induction l with
  | nil => intro k prev; rfl
  | cons day rest ih =>
      intro k prev
      simp only [scan_previous, scan_previous_onedate]
      by_cases h : fs (get_date today day) <;> simp [h, ih]

theorem scan_onedate_all_false (fs : Int → Bool) (today : Int) :
    ∀ (l : List Nat) (prev : Option Int),
      (∀ d ∈ l, fs (get_date today d) = false) →
      scan_previous_onedate fs today prev l =
        l.getLast?.elim prev fun d => some (get_date today d) := by
  intro l
  induction l with
  | nil => intro prev _; rfl
  | cons day rest ih =>
      intro prev h
      have hd : fs (get_date today day) = false := h day (List.mem_cons_self day rest)
      have hrest : ∀ d ∈ rest, fs (get_date today d) = false := fun d hm =>
        h d (List.mem_cons_of_mem day hm)
      simp only [scan_previous_onedate, hd, Bool.false_eq_true, if_false]
      rw [ih (some (get_date today day)) hrest]
      cases rest with
      | nil => rfl
      | cons e r =>
          cases hgl : (e :: r).getLast? with
          | none => simp at hgl
          | some x => simp [hgl]

theorem scan_onedate_found (fs : Int → Bool) (today : Int) :
    ∀ (l₁ : List Nat) (d : Nat) (l₂ : List Nat) (prev : Option Int),
      (∀ e ∈ l₁, fs (get_date today e) = false) →
      fs (get_date today d) = true →
      scan_previous_onedate fs today prev (l₁ ++ d :: l₂) =
        some (get_date today d) := by
  intro l₁
  induction l₁ with
  | nil =>
      intro d l₂ prev _ hd
      simp [scan_previous_onedate, hd]
  | cons e rest ih =>
      intro d l₂ prev h hd
      have he : fs (get_date today e) = false := h e (List.mem_cons_self e rest)
      have hrest : ∀ x ∈ rest, fs (get_date today x) = false := fun x hm =>
        h x (List.mem_cons_of_mem e hm)
      simp only [List.cons_append, scan_previous_onedate, he,
        Bool.false_eq_true, if_false]
      exact ih d l₂ (some (get_date today e)) hrest hd

theorem scan_onedate_exists (fs : Int → Bool) (today : Int) :
    ∀ (l : List Nat) (prev : Option Int),
      (∃ d ∈ l, fs (get_date today d) = true) →
      ∃ p, scan_previous_onedate fs today prev l = some p ∧ fs p = true := by
  intro l
  induction l with
  | nil => intro prev h; simp at h
  | cons day rest ih =>
      intro prev h
      by_cases hd : fs (get_date today day) = true
      · exact ⟨get_date today day, by simp [scan_previous_onedate, hd], hd⟩
      · have : ∃ d ∈ rest, fs (get_date today d) = true := by
          rcases h with ⟨d, hmem, hfs⟩
          rcases List.mem_cons.mp hmem with rfl | hm
          · exact absurd hfs hd
          · exact ⟨d, hm, hfs⟩
        rcases ih (some (get_date today day)) this with ⟨p, hp, hfsp⟩
        refine ⟨p, ?_, hfsp⟩
        simpa [scan_previous_onedate, hd] using hp

theorem probe_list_const_mem (fs : Int → Bool) (today : Int) :
    ∀ (l : List Nat) (k : Nat) (p : Int),
      p ∈ probe_list (fun _ => today) fs k l →
      ∃ day ∈ l, p = get_date today day := by
  intro l
  induction l with
  | nil => intro k p h; simp [probe_list] at h
  | cons day rest ih =>
      intro k p h
      simp only [probe_list] at h
      by_cases hd : fs (get_date today day) = true
      · simp [hd] at h
        exact ⟨day, List.mem_cons_self day rest, h⟩
      · simp [hd] at h
        rcases h with rfl | h
        · exact ⟨day, List.mem_cons_self day rest, rfl⟩
        · rcases ih (k + 1) p h with ⟨e, hm, he⟩
          exact ⟨e, List.mem_cons_of_mem day hm, he⟩

/-! ## Claims C1, C2, C9: the look-back scan -/

/-- Claim C1 as frozen is false on the code: when no prior report
directory exists on disk within the look-back window, `run()` does not
return an absent previous-report component.  The loop at lines 52-58
assigns `self.previous_reports` before testing existence, so after an
unsuccessful scan the field still holds the last probed path
(`today - 29`), a path that does not exist on disk. -/
theorem c1_counterexample :
    (∀ day ∈ pyRange 1 days_back,
      (fun _ => false : Int → Bool) (get_date 100 day) = false) ∧
    (run_result (fun _ => false) 100).2 ≠ none ∧
    (run_result (fun _ => false) 100).2 = some (get_date 100 29) := by
  decide

/-- Claim C1 amended: when some prior report directory exists within the
probed window, the previous-report component returned by `run()` is a path
that exists on disk (the nearest one); when none exists, the component is
not absent but holds the last probed path `today - 29`, which does not
exist on disk. -/
theorem c1_previous_reports (fs : Int → Bool) (today : Int) :
    ((∃ day ∈ pyRange 1 days_back, fs (get_date today day) = true) →
      ∃ p, (run_result fs today).2 = some p ∧ fs p = true) ∧
    ((∀ day ∈ pyRange 1 days_back, fs (get_date today day) = false) →
      (run_result fs today).2 = some (get_date today 29) ∧
        fs (get_date today 29) = false) := by
  constructor
  · intro h
    exact scan_onedate_exists fs today (pyRange 1 days_back) none h
  · intro h
    have hlast : (pyRange 1 days_back).getLast? = some 29 := by decide
    have h29 : fs (get_date today 29) = false := by
      refine h 29 ?_
      decide
    refine ⟨?_, h29⟩
    show scan_previous_onedate fs today none (pyRange 1 days_back) =
      some (get_date today 29)
    rw [scan_onedate_all_false fs today (pyRange 1 days_back) none h, hlast]
    rfl

theorem c1_previous_reports_witness :
    ∃ p, (run_result (fun q => decide (q = 99)) 100).2 = some p ∧
      (fun q => decide (q = (99 : Int))) p = true :=
  (c1_previous_reports (fun q => decide (q = 99)) 100).1
    ⟨1, by decide, by decide⟩

/-- Claim C2 as frozen is false on the code: the search loop is
`for day in range(1, 30)` (line 52), which probes days 1 through 29 and
never probes day 30 = `days_back`.  Here a report directory exists for
exactly one day in the past, day 30 (path `100 - 30 = 70`), yet the scan
does not return it. -/
theorem c2_counterexample :
    (fun q => decide (q = (70 : Int))) (get_date 100 30) = true ∧
    search_previous (fun q => decide (q = (70 : Int))) 100 30 ≠
      some (get_date 100 30) ∧
    search_previous (fun q => decide (q = (70 : Int))) 100 30 = some 71 := by
  decide

/-- Claim C2 amended: the search probes days 1 through `days_back - 1`
(Python `range(1, days_back)` excludes its upper bound) in ascending
order, computing the date-derived path for each, and returns the first
probed path that exists on disk; in particular, if a directory exists for
day `d` with `1 ≤ d < days_back` and for no nearer day, that day's
directory is returned. -/
theorem c2_first_existing (fs : Int → Bool) (today : Int) (n d : Nat)
    (h1 : 1 ≤ d) (h2 : d < n)
    (h3 : fs (get_date today d) = true)
    (h4 : ∀ e, 1 ≤ e → e < d → fs (get_date today e) = false) :
    search_previous fs today n = some (get_date today d) := by
  have hsplit : pyRange 1 n = List.range' 1 (d - 1) ++ d :: List.range' (d + 1) (n - d - 1) := by
    have hd : d = 1 + (d - 1) := by omega
    have h30 : List.range' 1 (d - 1) ++ List.range' (1 + (d - 1)) (n - d) =
        List.range' 1 ((n - d) + (d - 1)) :=
      List.range'_append_1 1 (d - 1) (n - d)
    have hnd : n - d = (n - d - 1) + 1 := by omega
    have hcons : List.range' (1 + (d - 1)) (n - d) =
        d :: List.range' (d + 1) (n - d - 1) := by
      rw [hnd, ← hd, List.range'_succ]
      simp
    rw [pyRange, show n - 1 = (n - d) + (d - 1) by omega, ← h30, hcons]
  show scan_previous_onedate fs today none (pyRange 1 n) = some (get_date today d)
  rw [hsplit]
  refine scan_onedate_found fs today (List.range' 1 (d - 1)) d
    (List.range' (d + 1) (n - d - 1)) none ?_ h3
  intro e he
  have := List.mem_range'_1.mp he
  exact h4 e (by omega) (by omega)

theorem c2_first_existing_witness :
    search_previous (fun q => decide (q = (98 : Int))) 100 30 =
      some (get_date 100 2) := by
  refine c2_first_existing (fun q => decide (q = (98 : Int))) 100 30 2
    (by decide) (by decide) (by decide) ?_
  intro e he1 he2
  have : e = 1 := by omega
  subst this
  decide

/-- Claim C9 as frozen is false on the code: `util.get_date` reads the
clock at each call (line 46 for the current directory, line 53 once per
probe), so a run whose clock advances by one day between readings probes
paths that are not derived from the date of the current directory; with
such a clock the very first "previous report" probe equals the current
report directory itself. -/
theorem c9_counterexample :
    setup_probes (fun k => (100 : Int) + k) (fun _ => false) ≠
      (pyRange 1 days_back).map
        (fun day => get_date (setup_reports fun k => (100 : Int) + k) day) ∧
    (setup_probes (fun k => (100 : Int) + k) (fun _ => false)).head? =
      some (setup_reports fun k => (100 : Int) + k) := by
  decide

/-- Claim C9 amended: each `util.get_date` call derives its result from
its own clock reading; whenever every clock reading made during `_setup`
returns one and the same date, the current report directory's name and
every probed previous-directory path are derived from that single date
value. -/
theorem c9_single_date (today : Int) (fs : Int → Bool) :
    setup_reports (fun _ => today) = get_date today 0 ∧
    ∀ p ∈ setup_probes (fun _ => today) fs,
      ∃ day ∈ pyRange 1 days_back, p = get_date today day := by
  refine ⟨rfl, ?_⟩
  intro p hp
  exact probe_list_const_mem fs today (pyRange 1 days_back) 1 p hp

theorem c9_single_date_witness :
    ∃ day ∈ pyRange 1 days_back, (99 : Int) = get_date 100 day :=
  (c9_single_date 100 (fun _ => false)).2 99 (by decide)

/-! ## Lemmas about the engine: the `Option` layer never fails -/

theorem fetch_attr_step_eq {D : Type} (g : GCP D) (r pn : String)
    (s : RState D) (a : String) :
    fetch_attr_step g r pn s a = some (fetch_attr_stepT g r pn s a) := by
  unfold fetch_attr_step fetch_attr_stepT
  cases h : g.fetch r a pn with
  | nil => simp [h]
  | cons d rest =>
      simp [h, record_attribute_data_reports, record_attribute_data_to_db]

theorem foldlM_eq_foldl {α β : Type} (f : β → α → Option β) (fT : β → α → β)
    (hf : ∀ s a, f s a = some (fT s a)) :
    ∀ (l : List α) (s : β), l.foldlM f s = some (l.foldl fT s) := by
  intro l
  induction l with
  | nil => intro s; rfl
  | cons a l ih => intro s; simp [List.foldlM_cons, hf, ih]

theorem process_resource_eq {D : Type} (g : GCP D) (pn : String)
    (s : RState D) (e : String × List String) :
    process_resource g pn s e = some (process_resourceT g pn s e) := by
  unfold process_resource process_resourceT
  dsimp only
  rw [foldlM_eq_foldl (fetch_attr_step g e.1 pn) (fetch_attr_stepT g e.1 pn)
    (fetch_attr_step_eq g e.1 pn) e.2]
  rfl

theorem fetch_attributes_eq {D : Type} (g : GCP D)
    (cfg : List (String × List String)) (s : RState D) :
    fetch_attributes_for_projects g cfg s = some (fetch_attributesT g cfg s) := by
  unfold fetch_attributes_for_projects fetch_attributesT
  exact foldlM_eq_foldl _ _
    (fun st row => foldlM_eq_foldl _ _
      (process_resource_eq g (get_projectId row)) cfg st)
    (s.db.get_table "projects") s

theorem run_eq_runT {D : Type} (g : GCP D) (cfg : List (String × List String))
    (s : RState D) :
    run g cfg s = some (runT g cfg s) := by
  unfold run runT
  dsimp only
  rw [fetch_attributes_eq]
  rfl

/-! ## Lemmas about the engine: per-contribution decomposition -/

theorem insert_get_table {α : Type} (db : Database α) (u : String) (v : α)
    (t : String) :
    (db.insert u v).get_table t =
      db.get_table t ++ (if t = u then [v] else []) := by
  unfold Database.insert Database.get_table
  by_cases h : t = u <;> simp [h]

theorem db_apply_get_table {α : Type} :
    ∀ (l : List (String × α)) (db : Database α) (t : String),
      (db_apply db l).get_table t = db.get_table t ++ rows_for t l := by
  intro l
  induction l with
  | nil => intro db t; simp [db_apply, rows_for, Database.get_table]
  | cons e l ih =>
      intro db t
      simp only [db_apply, List.foldl_cons]
      rw [show List.foldl (fun d e => Database.insert d e.1 e.2)
        (db.insert e.1 e.2) l = db_apply (db.insert e.1 e.2) l from rfl]
      rw [ih, insert_get_table]
      unfold rows_for
      by_cases h : t = e.1 <;> simp [h, List.filterMap_cons]

theorem mem_rows_for {α : Type} (t : String) (v : α)
    (l : List (String × α)) (h : (t, v) ∈ l) : v ∈ rows_for t l := by
  unfold rows_for
  exact List.mem_filterMap.mpr ⟨(t, v), h, by simp⟩

theorem rows_for_tagged {α β : Type} (t : String) (f : β → α) (l : List β) :
    rows_for t (l.map fun b => (t, f b)) = l.map f := by
  induction l with
  | nil => rfl
  | cons b l ih =>
      simp only [List.map_cons]
      unfold rows_for at ih ⊢
      simp [List.filterMap_cons, ih]

theorem db_apply_append {α : Type} (db : Database α)
    (l₁ l₂ : List (String × α)) :
    db_apply db (l₁ ++ l₂) = db_apply (db_apply db l₁) l₂ :=
  List.foldl_append _ _ l₁ l₂

theorem fetch_attr_stepT_eq {D : Type} (g : GCP D) (r pn : String)
    (s : RState D) (a : String) :
    fetch_attr_stepT g r pn s a =
      ⟨db_apply s.db (pair_rows g r pn a), s.warnings,
       s.files ++ pair_files g r pn a, s.trace ++ pair_trace g r pn a⟩ := by
  unfold fetch_attr_stepT pair_rows pair_files pair_trace
  cases h : g.fetch r a pn with
  | nil => simp [h, db_apply]
  | cons d rest => simp [h, db_apply, List.append_assoc]

theorem foldl_fetch_attr_stepT {D : Type} (g : GCP D) (r pn : String) :
    ∀ (items : List String) (s : RState D),
      items.foldl (fetch_attr_stepT g r pn) s =
        ⟨db_apply s.db (client_rows g r pn items), s.warnings,
         s.files ++ client_files g r pn items,
         s.trace ++ items.flatMap (pair_trace g r pn)⟩ := by
  intro items
  induction items with
  | nil => intro s; simp [client_rows, client_files, db_apply]
  | cons a items ih =>
      intro s
      rw [List.foldl_cons, fetch_attr_stepT_eq, ih]
      simp [client_rows, client_files, db_apply_append, List.append_assoc]

theorem process_resourceT_eq {D : Type} (g : GCP D) (pn : String)
    (s : RState D) (e : String × List String) :
    process_resourceT g pn s e =
      ⟨db_apply s.db (client_rows g e.1 pn e.2),
       s.warnings ++ client_warns g e.1 pn e.2,
       s.files ++ client_files g e.1 pn e.2,
       s.trace ++ client_trace g e.1 pn e.2⟩ := by
  unfold process_resourceT client_trace
  dsimp only
  rw [foldl_fetch_attr_stepT]
  by_cases h : (e.2.flatMap fun a => g.fetchWarn e.1 a pn) = [] <;>
    simp [h, client_warns, List.append_assoc]

theorem foldl_process_resourceT {D : Type} (g : GCP D) (pn : String) :
    ∀ (cfg : List (String × List String)) (s : RState D),
      cfg.foldl (process_resourceT g pn) s =
        ⟨db_apply s.db (proj_rows g cfg pn),
         s.warnings ++ proj_warns g cfg pn,
         s.files ++ proj_files g cfg pn,
         s.trace ++ proj_trace g cfg pn⟩ := by
  intro cfg
  induction cfg with
  | nil => intro s; simp [proj_rows, proj_warns, proj_files, proj_trace, db_apply]
  | cons e cfg ih =>
      intro s
      rw [List.foldl_cons, process_resourceT_eq, ih]
      simp [proj_rows, proj_warns, proj_files, proj_trace, db_apply_append,
        List.append_assoc]

theorem foldl_projects_eq {D : Type} (g : GCP D)
    (cfg : List (String × List String)) :
    ∀ (pns : List String) (s : RState D),
      pns.foldl (fun st pn => cfg.foldl (process_resourceT g pn) st) s =
        ⟨db_apply s.db (all_rows g cfg pns),
         s.warnings ++ all_warns g cfg pns,
         s.files ++ all_files g cfg pns,
         s.trace ++ all_trace g cfg pns⟩ := by
  intro pns
  induction pns with
  | nil => intro s; simp [all_rows, all_warns, all_files, all_trace, db_apply]
  | cons pn pns ih =>
      intro s
      rw [List.foldl_cons, foldl_process_resourceT, ih]
      simp [all_rows, all_warns, all_files, all_trace, db_apply_append,
        List.append_assoc]

theorem fetch_attributesT_eq {D : Type} (g : GCP D)
    (cfg : List (String × List String)) (s : RState D) :
    fetch_attributesT g cfg s =
      ⟨db_apply s.db
        (all_rows g cfg ((s.db.get_table "projects").map get_projectId)),
       s.warnings ++ all_warns g cfg ((s.db.get_table "projects").map get_projectId),
       s.files ++ all_files g cfg ((s.db.get_table "projects").map get_projectId),
       s.trace ++ all_trace g cfg ((s.db.get_table "projects").map get_projectId)⟩ := by
  unfold fetch_attributesT
  rw [← List.foldl_map get_projectId
    (fun st pn => cfg.foldl (process_resourceT g pn) st)
    (s.db.get_table "projects") s]
  exact foldl_projects_eq g cfg ((s.db.get_table "projects").map get_projectId) s

theorem fetch_projects_fold {D : Type} :
    ∀ (l : List Project) (s2 : RState D),
      l.foldl
        (fun st p =>
          { st with
            db := st.db.insert "projects" (Sum.inl p)
            trace := st.trace ++ [Event.dbInsert "projects" (Sum.inl p)] })
        s2 =
      ⟨db_apply s2.db (l.map fun p => ("projects", Sum.inl p)), s2.warnings,
       s2.files, s2.trace ++ l.map fun p => Event.dbInsert "projects" (Sum.inl p)⟩ := by
  intro l
  induction l with
  | nil => intro s2; simp [db_apply]
  | cons p l ih =>
      intro s2
      rw [List.foldl_cons, ih]
      simp [db_apply, List.append_assoc]

theorem fetch_projects_eq {D : Type} (g : GCP D) (s : RState D) :
    fetch_projects g s =
      (⟨db_apply s.db (disc_rows g), s.warnings ++ g.projects_warnings,
        s.files, s.trace ++ disc_trace g⟩, g.projects.length) := by
  unfold fetch_projects disc_rows disc_trace
  dsimp only
  rw [fetch_projects_fold]
  by_cases h : g.projects_warnings = [] <;> simp [h, List.append_assoc]

theorem run_project_names_eq {D : Type} (g : GCP D) (s : RState D) :
    run_project_names g s =
      ((s.db.get_table "projects").map get_projectId) ++
        g.projects.map Project.projectId := by
  unfold run_project_names
  rw [fetch_projects_eq]
  show ((db_apply s.db (disc_rows g)).get_table "projects").map get_projectId = _
  rw [db_apply_get_table, disc_rows, rows_for_tagged]
  simp only [List.map_append, List.map_map]
  rfl

theorem runT_eq {D : Type} (g : GCP D) (cfg : List (String × List String))
    (s : RState D) :
    runT g cfg s =
      (⟨db_apply s.db (disc_rows g ++ all_rows g cfg (run_project_names g s)),
        s.warnings ++ g.projects_warnings ++
          all_warns g cfg (run_project_names g s),
        s.files ++ all_files g cfg (run_project_names g s),
        s.trace ++ disc_trace g ++ all_trace g cfg (run_project_names g s)⟩,
       g.projects.length) := by
  have hnames : run_project_names g s =
      (((fetch_projects g s).1.db).get_table "projects").map get_projectId := rfl
  unfold runT
  dsimp only
  rw [fetch_projects_eq]
  rw [fetch_projects_eq] at hnames
  dsimp only at hnames ⊢
  rw [fetch_attributesT_eq]
  dsimp only
  rw [← hnames, db_apply_append]

theorem mem_all_warns {D : Type} (g : GCP D) (cfg : List (String × List String))
    (pns : List String) (pn r : String) (items : List String) (a w : String)
    (hpn : pn ∈ pns) (hr : (r, items) ∈ cfg) (ha : a ∈ items)
    (hw : w ∈ g.fetchWarn r a pn) : w ∈ all_warns g cfg pns := by
  unfold all_warns proj_warns client_warns
  exact List.mem_flatMap.mpr ⟨pn, hpn, List.mem_flatMap.mpr ⟨(r, items), hr,
    List.mem_flatMap.mpr ⟨a, ha, hw⟩⟩⟩

theorem mem_all_files {D : Type} (g : GCP D) (cfg : List (String × List String))
    (pns : List String) (pn r : String) (items : List String) (a : String)
    (d : D) (rest : List D)
    (hpn : pn ∈ pns) (hr : (r, items) ∈ cfg) (ha : a ∈ items)
    (hd : g.fetch r a pn = d :: rest) :
    (report_filename pn a, d) ∈ all_files g cfg pns := by
  unfold all_files proj_files client_files
  refine List.mem_flatMap.mpr ⟨pn, hpn, List.mem_flatMap.mpr ⟨(r, items), hr,
    List.mem_flatMap.mpr ⟨a, ha, ?_⟩⟩⟩
  unfold pair_files
  simp [hd]

theorem mem_all_rows {D : Type} (g : GCP D) (cfg : List (String × List String))
    (pns : List String) (pn r : String) (items : List String) (a : String)
    (d : D) (rest : List D)
    (hpn : pn ∈ pns) (hr : (r, items) ∈ cfg) (ha : a ∈ items)
    (hd : g.fetch r a pn = d :: rest) :
    (a, Sum.inr d) ∈ all_rows g cfg pns := by
  unfold all_rows proj_rows client_rows
  refine List.mem_flatMap.mpr ⟨pn, hpn, List.mem_flatMap.mpr ⟨(r, items), hr,
    List.mem_flatMap.mpr ⟨a, ha, ?_⟩⟩⟩
  unfold pair_rows
  simp [hd]

/-! ## Claims C3, C4, C5, C6, C8, C10: the engine -/

/-- Claim C3 (confirmed): in every run in which one attribute fetch of the
per-project loop produces a collaborator-reported warning `w` and some
attribute fetch of the loop returns data, `w` is in the engine's warning
sequence at end of run, and that attribute's data is still written to both
the report file and the store table.  Moreover the final warning sequence
is exactly the initial sequence followed by every client's accumulated
warnings in run order (discovery client first, then one client per
(project, resource-type)): warnings are append-only, accumulated across
every client instantiation, and never cleared mid-run. -/
theorem c3_warning_accumulation {D : Type} (g : GCP D)
    (cfg : List (String × List String)) (s : RState D)
    (pn1 r1 : String) (items1 : List String) (a1 w : String)
    (pn2 r2 : String) (items2 : List String) (a2 : String)
    (hpn1 : pn1 ∈ run_project_names g s) (hr1 : (r1, items1) ∈ cfg)
    (ha1 : a1 ∈ items1) (hw : w ∈ g.fetchWarn r1 a1 pn1)
    (hpn2 : pn2 ∈ run_project_names g s) (hr2 : (r2, items2) ∈ cfg)
    (ha2 : a2 ∈ items2) (hdata : g.fetch r2 a2 pn2 ≠ []) :
    run g cfg s = some (runT g cfg s) ∧
    (runT g cfg s).1.warnings =
      s.warnings ++ g.projects_warnings ++
        all_warns g cfg (run_project_names g s) ∧
    w ∈ (runT g cfg s).1.warnings ∧
    ∃ d, (g.fetch r2 a2 pn2).head? = some d ∧
      (report_filename pn2 a2, d) ∈ (runT g cfg s).1.files ∧
      Sum.inr d ∈ (runT g cfg s).1.db.get_table a2 := by
  have hwq : (runT g cfg s).1.warnings =
      s.warnings ++ g.projects_warnings ++
        all_warns g cfg (run_project_names g s) := by rw [runT_eq]
  refine ⟨run_eq_runT g cfg s, hwq, ?_, ?_⟩
  · rw [hwq]
    exact List.mem_append.mpr (Or.inr
      (mem_all_warns g cfg (run_project_names g s) pn1 r1 items1 a1 w
        hpn1 hr1 ha1 hw))
  · cases hd : g.fetch r2 a2 pn2 with
    | nil => exact absurd hd hdata
    | cons d rest =>
        refine ⟨d, rfl, ?_, ?_⟩
        · rw [runT_eq]
          exact List.mem_append.mpr (Or.inr
            (mem_all_files g cfg (run_project_names g s) pn2 r2 items2 a2 d
              rest hpn2 hr2 ha2 hd))
        · rw [runT_eq]
          show Sum.inr d ∈ (db_apply s.db _).get_table a2
          rw [db_apply_get_table]
          refine List.mem_append.mpr (Or.inr ?_)
          refine mem_rows_for a2 (Sum.inr d) _ ?_
          exact List.mem_append.mpr (Or.inr
            (mem_all_rows g cfg (run_project_names g s) pn2 r2 items2 a2 d
              rest hpn2 hr2 ha2 hd))

theorem c3_warning_accumulation_witness :
    run gEx cfgEx (RState.startState Nat) =
      some (runT gEx cfgEx (RState.startState Nat)) ∧
    (runT gEx cfgEx (RState.startState Nat)).1.warnings =
      (RState.startState Nat).warnings ++ gEx.projects_warnings ++
        all_warns gEx cfgEx (run_project_names gEx (RState.startState Nat)) ∧
    "w1" ∈ (runT gEx cfgEx (RState.startState Nat)).1.warnings ∧
    ∃ d, (gEx.fetch "compute" "firewalls" "p1").head? = some d ∧
      (report_filename "p1" "firewalls", d) ∈
        (runT gEx cfgEx (RState.startState Nat)).1.files ∧
      Sum.inr d ∈
        (runT gEx cfgEx (RState.startState Nat)).1.db.get_table "firewalls" :=
  c3_warning_accumulation gEx cfgEx (RState.startState Nat)
    "p1" "compute" ["networks", "firewalls"] "networks" "w1"
    "p1" "compute" ["networks", "firewalls"] "firewalls"
    (by decide) (by decide) (by decide) (by decide)
    (by decide) (by decide) (by decide) (by decide)

/-- Claim C4 (confirmed): for every attribute fetch whose result is
non-empty, exactly the first element of the returned sequence is inserted
into the store table named after the attribute, and that same first
element is the document written to the report file; elements beyond the
first reach neither sink.  The final file list and every store table are
exactly the initial contents followed by the per-fetch contributions
`pair_files` / `pair_rows`, each of which holds the head of its fetch
result and nothing else. -/
theorem c4_first_element_only {D : Type} (g : GCP D)
    (cfg : List (String × List String)) (s : RState D) :
    run g cfg s = some (runT g cfg s) ∧
    (runT g cfg s).1.files =
      s.files ++ all_files g cfg (run_project_names g s) ∧
    (∀ t, (runT g cfg s).1.db.get_table t =
      s.db.get_table t ++ rows_for t (disc_rows g) ++
        rows_for t (all_rows g cfg (run_project_names g s))) ∧
    (∀ r pn a (d : D) rest, g.fetch r a pn = d :: rest →
      pair_files g r pn a = [(report_filename pn a, d)] ∧
      pair_rows g r pn a = [(a, Sum.inr d)]) := by
  refine ⟨run_eq_runT g cfg s, ?_, ?_, ?_⟩
  · rw [runT_eq]
  · intro t
    rw [runT_eq]
    show (db_apply s.db _).get_table t = _
    rw [db_apply_get_table]
    unfold rows_for
    rw [List.filterMap_append, List.append_assoc]
  · intro r pn a d rest hd
    constructor <;> simp [pair_files, pair_rows, hd]

theorem c4_first_element_only_witness :
    pair_files gEx "compute" "p1" "firewalls" =
      [(report_filename "p1" "firewalls", 7)] ∧
    pair_rows gEx "compute" "p1" "firewalls" =
      [("firewalls", Sum.inr 7)] :=
  (c4_first_element_only gEx cfgEx (RState.startState Nat)).2.2.2
    "compute" "p1" "firewalls" 7 [8] (by decide)

/-- Claim C5 (confirmed): a (project, attribute) pair whose fetch returns
an empty (or absent, modelled as empty) result contributes no report file,
no store row, and no trace event beyond its fetch; the run completes
normally, and the final warning sequence consists solely of
collaborator-reported warning lists, so the empty result itself adds no
warning. -/
theorem c5_empty_fetch_skipped {D : Type} (g : GCP D)
    (cfg : List (String × List String)) (s : RState D)
    (pn r : String) (items : List String) (a : String)
    (hpn : pn ∈ run_project_names g s) (hr : (r, items) ∈ cfg)
    (ha : a ∈ items) (hempty : g.fetch r a pn = []) :
    run g cfg s = some (runT g cfg s) ∧
    pair_files g r pn a = [] ∧
    pair_rows g r pn a = [] ∧
    pair_trace g r pn a = [Event.fetchAttr r a (some pn)] ∧
    (runT g cfg s).1.warnings =
      s.warnings ++ g.projects_warnings ++
        all_warns g cfg (run_project_names g s) := by
  refine ⟨run_eq_runT g cfg s, ?_, ?_, ?_, ?_⟩
  · simp [pair_files, hempty]
  · simp [pair_rows, hempty]
  · simp [pair_trace, hempty]
  · rw [runT_eq]

theorem c5_empty_fetch_skipped_witness :
    run gEx cfgEx (RState.startState Nat) =
      some (runT gEx cfgEx (RState.startState Nat)) ∧
    pair_files gEx "compute" "p2" "networks" = [] ∧
    pair_rows gEx "compute" "p2" "networks" = [] ∧
    pair_trace gEx "compute" "p2" "networks" =
      [Event.fetchAttr "compute" "networks" (some "p2")] ∧
    (runT gEx cfgEx (RState.startState Nat)).1.warnings =
      (RState.startState Nat).warnings ++ gEx.projects_warnings ++
        all_warns gEx cfgEx (run_project_names gEx (RState.startState Nat)) :=
  c5_empty_fetch_skipped gEx cfgEx (RState.startState Nat)
    "p2" "compute" ["networks", "firewalls"] "networks"
    (by decide) (by decide) (by decide) (by decide)

/-- Claim C6 as frozen is false on the code: `_fetch_projects` inserts
every element of the discovery result as-is (lines 110-111) and the store
enforces no uniqueness, so a discovery list that repeats a `projectId`
yields a `"projects"` table whose rows do not have pairwise-distinct
`projectId`s. -/
theorem c6_counterexample :
    gDup.projects.length = 2 ∧
    ((fetch_projects gDup (RState.startState Nat)).1.db.get_table
      "projects").length = 2 ∧
    ¬ (((fetch_projects gDup (RState.startState Nat)).1.db.get_table
      "projects").map get_projectId).Nodup := by
  refine ⟨rfl, ?_, ?_⟩ <;>
    · rw [fetch_projects_eq]
      decide

/-- Claim C6 amended: for every project list of size N returned by the
discovery fetch, the `"projects"` table afterwards contains exactly those
N rows in discovery order, and the value reported as the number of
projects retrieved equals N; the rows carry pairwise-distinct
`projectId`s whenever the discovered list's `projectId`s are pairwise
distinct (the code itself enforces no uniqueness). -/
theorem c6_projects_table {D : Type} (g : GCP D) :
    (fetch_projects g (RState.startState D)).1.db.get_table "projects" =
      g.projects.map Sum.inl ∧
    (fetch_projects g (RState.startState D)).2 = g.projects.length ∧
    ((g.projects.map Project.projectId).Nodup →
      (((fetch_projects g (RState.startState D)).1.db.get_table
        "projects").map get_projectId).Nodup) := by
  have htab : (fetch_projects g (RState.startState D)).1.db.get_table
      "projects" = g.projects.map Sum.inl := by
    rw [fetch_projects_eq]
    show (db_apply (RState.startState D).db (disc_rows g)).get_table
      "projects" = _
    rw [db_apply_get_table, disc_rows, rows_for_tagged]
    rfl
  refine ⟨htab, by rw [fetch_projects_eq], ?_⟩
  intro hnd
  rw [htab, List.map_map]
  exact hnd

theorem c6_projects_table_witness :
    (((fetch_projects gEx (RState.startState Nat)).1.db.get_table
      "projects").map get_projectId).Nodup :=
  (c6_projects_table gEx).2.2 (by decide)

/-- Claim C8 (confirmed): the run's trace is the discovery block followed
by the attribute-collection block: discovery (one client for
`"cloudresourcemanager"`, the unscoped projects fetch, the project
inserts) completes before any attribute collection event; attribute
collection iterates the project names read back from the store's
`"projects"` table (`run_project_names`, a `get_table` read, not the
in-memory discovery result) in insertion order, within each project the
configured resource-types in configuration order (`proj_trace`), within
each resource-type the attribute names in list order (`client_trace`),
with one fresh client construction event per (project, resource-type). -/
theorem c8_ordering {D : Type} (g : GCP D)
    (cfg : List (String × List String)) (s : RState D) :
    run g cfg s = some (runT g cfg s) ∧
    (runT g cfg s).1.trace =
      s.trace ++ disc_trace g ++
        all_trace g cfg (run_project_names g s) := by
  refine ⟨run_eq_runT g cfg s, ?_⟩
  rw [runT_eq]

/-- Claim C10 (confirmed): the Python `[0]` accesses of
`_record_attribute_data_to_db` and `_record_attribute_data_reports` are
reached only under the `if attribute_data:` guard of
`_fetch_attributes_for_projects`, so the index never fails: the run, in
which a failed index is modelled as `none`, always returns a value. -/
theorem c10_index_zero_safe {D : Type} (g : GCP D)
    (cfg : List (String × List String)) (s : RState D) :
    (run g cfg s).isSome = true := by
  rw [run_eq_runT]
  rfl

/-! ## Claim C7: the report-filename round trip -/

theorem splitOnChar_not_mem (c : Char) :
    ∀ l : List Char, c ∉ l → splitOnChar c l = [l] := by
  intro l
  induction l with
  | nil => intro _; rfl
  | cons x xs ih =>
      intro h
      have hx : ¬ x = c := fun he => h (he ▸ List.mem_cons_self x xs)
      have hxs : c ∉ xs := fun hm => h (List.mem_cons_of_mem x hm)
      simp [splitOnChar, hx, ih hxs]

theorem splitOnChar_append (c : Char) :
    ∀ l₁ l₂ : List Char, c ∉ l₁ →
      splitOnChar c (l₁ ++ c :: l₂) = l₁ :: splitOnChar c l₂ := by
  intro l₁
  induction l₁ with
  | nil => intro l₂ _; simp [splitOnChar]
  | cons x xs ih =>
      intro l₂ h
      have hx : ¬ x = c := fun he => h (he ▸ List.mem_cons_self x xs)
      have hxs : c ∉ xs := fun hm => h (List.mem_cons_of_mem x hm)
      simp [splitOnChar, hx, ih l₂ hxs]

/-- Claim C7 (confirmed): report files are named
`projectId ++ "@" ++ attributeName ++ ".json"`, and - provided neither
name contains `"@"` - splitting the filename on `"@"` (as the downstream
diff consumer does) recovers exactly the `projectId` and
`attributeName ++ ".json"`. -/
theorem c7_filename_roundtrip (pn a : String)
    (h1 : '@' ∉ pn.data) (h2 : '@' ∉ a.data) :
    splitOnChar '@' (report_filename pn a).data =
      [pn.data, a.data ++ ".json".data] := by
  have hdata : (report_filename pn a).data =
      pn.data ++ '@' :: (a.data ++ ".json".data) := by
    simp [report_filename]
  have hjson : '@' ∉ a.data ++ ".json".data := by
    intro hm
    rcases List.mem_append.mp hm with hm | hm
    · exact h2 hm
    · revert hm
      decide
  rw [hdata, splitOnChar_append '@' pn.data (a.data ++ ".json".data) h1,
    splitOnChar_not_mem '@' (a.data ++ ".json".data) hjson]

theorem c7_filename_roundtrip_witness :
    splitOnChar '@' (report_filename "p1" "firewalls").data =
      ["p1".data, "firewalls".data ++ ".json".data] :=
  c7_filename_roundtrip "p1" "firewalls" (by decide) (by decide)

end Amigo
